import Mathlib

/-!
# Verification of `packages/core/src/render3/util.ts`

A shallow embedding of the render3 utility module and proofs about it.
JavaScript numbers appearing as non-negative integers are modelled as `Nat`
(bit operations written with explicit masks/shifts); signed indices as `Int`;
the dynamically-typed storage slots of `LView` / `LContainer` / styling
contexts are modelled as an explicit sum type `Slot` (the source
discriminates record kinds by array length; the spec's design notes call for
an explicit discriminant tag, which the sum-type constructors provide).
-/

namespace Render3

/-! ## Nested sequences and `flatten`

`flatten(list)` from util.ts is an iterative loop over `(list, i)`.  Its
future behaviour depends only on the unprocessed suffix `list.slice(i)`:
a leaf is pushed and `i` advances; an empty array is skipped; a non-empty
array `item` replaces the working list by `item.concat(list.slice(i+1))`
with `i = 0`, i.e. the suffix becomes `item ++ suffix.tail`.  We embed the
loop as structural recursion on that suffix, with the accumulated `result`
threaded through (push = append at the right).  The source never writes to
the input list (`concat` and `slice` allocate fresh arrays), so the pure
embedding also models the no-mutation part of the contract by construction. -/

/-- A JavaScript value that is either a non-array leaf or a (possibly
nested) array, as consumed by `flatten`. Leaves carry an `Int` payload. -/
inductive NVal where
  | leaf : Int → NVal
  | arr : List NVal → NVal

mutual
/-- Total number of constructors in a nested value (leaves and array
wrappers); used as the termination measure of the `flatten` loop. -/
def nsize : NVal → Nat
  | .leaf _ => 1
  | .arr xs => 1 + nsizeList xs
/-- Sum of `nsize` over a list. -/
def nsizeList : List NVal → Nat
  | [] => 0
  | v :: rest => nsize v + nsizeList rest
end

mutual
/-- Number of array wrappers in a nested value. -/
def arrCount : NVal → Nat
  | .leaf _ => 0
  | .arr xs => 1 + arrCountList xs
/-- Sum of `arrCount` over a list. -/
def arrCountList : List NVal → Nat
  | [] => 0
  | v :: rest => arrCount v + arrCountList rest
end

/-- The `while` loop of `flatten` in util.ts, acting on the unprocessed
suffix of the working list and the `result` accumulator:
leaf → `result.push(item); i++`; empty array → `i++`;
non-empty array `item` → `list = item.concat(list.slice(i+1)); i = 0`. -/
def flattenGo : List NVal → List Int → List Int
  | [], result => result
  | .leaf n :: rest, result => flattenGo rest (result ++ [n])
  | .arr xs :: rest, result =>
    if xs.length > 0 then flattenGo (xs ++ rest) result
    else flattenGo rest result
termination_by l _ => nsizeList l
decreasing_by
  · simp [nsizeList, nsize]
  · have h : ∀ ys zs : List NVal, nsizeList (ys ++ zs) = nsizeList ys + nsizeList zs := by
      intro ys zs
      induction ys with
      | nil => simp [nsizeList]
      | cons a as ih =>
        show nsize a + nsizeList (as ++ zs) = (nsize a + nsizeList as) + nsizeList zs
        rw [ih]; omega
    simp only [nsizeList, nsize, h]
    omega
  · simp [nsizeList, nsize]

/-- `flatten` from util.ts: `result = []; i = 0; while (i < list.length) …`. -/
def flatten (list : List NVal) : List Int := flattenGo list []

mutual
/-- The non-array leaves of a nested value, in left-to-right order. -/
def leavesOf : NVal → List Int
  | .leaf n => [n]
  | .arr xs => leavesList xs
/-- The leaves of a list of nested values, in left-to-right order. -/
def leavesList : List NVal → List Int
  | [] => []
  | v :: rest => leavesOf v ++ leavesList rest
end

/-- Fuel-indexed version of the `flatten` loop: `none` means the fuel ran
out before the loop finished.  Used to state termination as a theorem. -/
def flattenGoFuel : Nat → List NVal → List Int → Option (List Int)
  | _, [], result => some result
  | 0, _ :: _, _ => none
  | fuel + 1, .leaf n :: rest, result => flattenGoFuel fuel rest (result ++ [n])
  | fuel + 1, .arr xs :: rest, result =>
    if xs.length > 0 then flattenGoFuel fuel (xs ++ rest) result
    else flattenGoFuel fuel rest result

/-! ## `isDifferent`

`isDifferent(a, b)` is `!(a !== a && b !== b) && a !== b`.  The only
JavaScript value that is not strictly equal to itself is `NaN`, so a value
is modelled as "NaN or a self-equal scalar/reference", the latter carried
as an `Int` identity. -/

/-- A JavaScript value as seen by `isDifferent`: either the `NaN` sentinel
or an ordinary value (scalar or reference), identified by an `Int`. -/
inductive JSVal where
  | nan : JSVal
  | val : Int → JSVal
deriving DecidableEq

/-- JavaScript strict equality `===` on the model: `NaN` is equal to
nothing, itself included; other values are equal exactly when identical. -/
def jsEq : JSVal → JSVal → Bool
  | .nan, _ => false
  | _, .nan => false
  | .val a, .val b => a == b

/-- `isDifferent` from util.ts: `!(a !== a && b !== b) && a !== b`. -/
def isDifferent (a b : JSVal) : Bool :=
  !(!jsEq a a && !jsEq b b) && !jsEq a b

/-! ## Injector location codec

`getParentInjectorIndex` / `getParentInjectorViewOffset` decode a packed
injector location.  The constants come from `interfaces/injector.ts`,
which is not among the sources at hand. -/

/-- Modelled from the spec: `RelativeInjectorLocationFlags.InjectorIndexMask`
from `interfaces/injector.ts` is missing from the sources; the spec says the
low-order bits of a location hold the scope-index masked to a fixed bit
width, the remaining high-order bits holding the view-offset, so the mask
covers exactly the bits below the shift point. -/
def InjectorIndexMask : Nat := 65535

/-- Modelled from the spec: `RelativeInjectorLocationFlags.ViewOffsetShift`
from `interfaces/injector.ts` is missing from the sources; the fixed shift
constant separating the scope-index bits from the view-offset bits. -/
def ViewOffsetShift : Nat := 16

/-- `getParentInjectorIndex` from util.ts:
`location & RelativeInjectorLocationFlags.InjectorIndexMask`. -/
def getParentInjectorIndex (parentLocation : Nat) : Nat :=
  parentLocation &&& InjectorIndexMask

/-- `getParentInjectorViewOffset` from util.ts:
`location >> RelativeInjectorLocationFlags.ViewOffsetShift`. -/
def getParentInjectorViewOffset (parentLocation : Nat) : Nat :=
  parentLocation >>> ViewOffsetShift

/-- Modelled from the spec: the encoder producing a packed location is not
in the sources; the spec says encoding packs {scope-index, view-offset} into
one integer with the scope-index in the low-order bits and the view-offset
in the remaining high-order bits above the shift point. -/
def encodeInjectorLocation (scopeIndex viewOffset : Nat) : Nat :=
  scopeIndex + viewOffset * 2 ^ ViewOffsetShift

/-! ## Static node descriptors (`TNode`)

`interfaces/node.ts` is not among the sources; only the fields util.ts
reads are modelled: `index` (slot index into the owning `LView`),
`injectorIndex` (`-1` = no injector scope), `parent` (static parent
descriptor) and `next` (static next sibling). -/

/-- A static node descriptor.  `parent` and `next` embed the ancestor and
right-sibling chains; object identity in the source becomes structural
identity of the chains hanging off a node. -/
inductive TNode where
  | mk : Nat → Int → Option TNode → Option TNode → TNode

/-- Slot index of the descriptor in the owning view (`tNode.index`). -/
def TNode.index : TNode → Nat
  | .mk i _ _ _ => i

/-- Injector scope index of the descriptor (`tNode.injectorIndex`),
`-1` meaning none. -/
def TNode.injectorIndex : TNode → Int
  | .mk _ ii _ _ => ii

/-- Static parent descriptor (`tNode.parent`). -/
def TNode.parent : TNode → Option TNode
  | .mk _ _ p _ => p

/-- Static next-sibling descriptor (`tNode.next`). -/
def TNode.next : TNode → Option TNode
  | .mk _ _ _ n => n

/-- The static ancestor chain of a descriptor: the node itself followed by
its parents up to the root. -/
def ancestorChain : TNode → List TNode
  | .mk i ii none nx => [.mk i ii none nx]
  | .mk i ii (some pp) nx => .mk i ii (some pp) nx :: ancestorChain pp

/-! ## Runtime records (`LView`, `LContainer`, styling contexts)

A storage slot of a view is dynamically typed in the source: it may hold a
bare render node, a nested `LView`, an `LContainer`, a styling context or
`null`.  The source discriminates these by array shape (`isLView`: length ≥
`HEADER_OFFSET`; `isLContainer`: length = `LCONTAINER_LENGTH`); here each
record kind is a constructor, and slot 0 (`HOST`) of each array kind is its
first field.  Only the header fields util.ts reads are modelled:
`HOST`, `TVIEW` (reduced to its `firstChild`), `PARENT`, `T_HOST`,
`DECLARATION_VIEW`, and the dynamic slots as a list indexed the way
`lView[tNode.index]` indexes the array (absent indices read as `null`). -/

/-- A dynamically-typed runtime value stored in a view slot or passed to
the navigation functions.  `view host firstChild parent tHost declView data`
models an `LView`; `container host parent` an `LContainer`; `styling host`
a styling context (whose slot 0 holds the wrapped element value). -/
inductive Slot where
  | null : Slot
  | rnode : Nat → Slot
  | styling : Slot → Slot
  | container : Slot → Slot → Slot
  | view : Slot → Option TNode → Slot → Option TNode → Slot → List Slot → Slot

/-- `tView.firstChild` of an `LView`'s `TVIEW`. -/
def Slot.firstChild : Slot → Option TNode
  | .view _ fc _ _ _ _ => fc
  | _ => none

/-- `PARENT` field of an `LView`. -/
def Slot.parentSlot : Slot → Slot
  | .view _ _ p _ _ _ => p
  | _ => .null

/-- `T_HOST` field of an `LView` (the view's static root descriptor). -/
def Slot.tHost : Slot → Option TNode
  | .view _ _ _ th _ _ => th
  | _ => none

/-- `DECLARATION_VIEW` field of an `LView`. -/
def Slot.declarationView : Slot → Slot
  | .view _ _ _ _ dv _ => dv
  | _ => .null

/-- `PARENT` field of an `LContainer`. -/
def Slot.containerParent : Slot → Slot
  | .container _ p => p
  | _ => .null

/-- Dynamic-slot read `lView[i]`; reading outside the stored slots yields
`null` (JavaScript `undefined` and `null` are conflated in the model). -/
def Slot.getSlot : Slot → Nat → Slot
  | .view _ _ _ _ _ data, i => data.getD i .null
  | _, _ => .null

/-- `isLContainer` from util.ts: the source tests
`Array.isArray(value) && value.length === LCONTAINER_LENGTH`; in the tagged
model this is exactly the `container` constructor. -/
def isLContainer : Slot → Bool
  | .container _ _ => true
  | _ => false

/-- `isLView` from util.ts: the source tests
`Array.isArray(value) && value.length >= HEADER_OFFSET`; in the tagged
model this is exactly the `view` constructor. -/
def isLView : Slot → Bool
  | .view _ _ _ _ _ _ => true
  | _ => false

/-- `Array.isArray` on a slot value: views, containers and styling
contexts are arrays; render nodes and `null` are not. -/
def isArraySlot : Slot → Bool
  | .view _ _ _ _ _ _ => true
  | .container _ _ => true
  | .styling _ => true
  | _ => false

/-- `getLViewParent` from util.ts:
`const parent = lView[PARENT]; return isLContainer(parent) ? parent[PARENT]! : parent`. -/
def getLViewParent (lView : Slot) : Slot :=
  let parent := lView.parentSlot
  if isLContainer parent then parent.containerParent else parent

/-- `readElementValue` from util.ts:
`while (Array.isArray(value)) value = value[HOST]; return value`. -/
def readElementValue : Slot → Slot
  | .view h _ _ _ _ _ => readElementValue h
  | .container h _ => readElementValue h
  | .styling h => readElementValue h
  | v => v

/-- The inner `while (child) { lastChild = child; child = child.next; }`
walk of `getLastRootElementFromView`: follow the static sibling chain to
its last element. -/
def lastSibling : TNode → TNode
  | .mk i ii p none => .mk i ii p none
  | .mk _ _ _ (some n) => lastSibling n

/-- `getLastRootElementFromView` from util.ts: starting from
`tView.firstChild` walk the sibling chain to the last descriptor and return
`lView[lastChild.index]` — the raw slot value, with no unwrapping.  A view
with no first child fails the debug assertion and crashes in production;
modelled as `none`. -/
def getLastRootElementFromView (lView : Slot) : Option Slot :=
  match lView.firstChild with
  | none => none
  | some child => some (lView.getSlot (lastSibling child).index)

/-- The `while (viewOffset > 0)` loop of `getParentInjectorView`: climb the
`DECLARATION_VIEW` chain `viewOffset` times. -/
def climbDeclarationView : Nat → Slot → Slot
  | 0, v => v
  | n + 1, v => climbDeclarationView n v.declarationView

/-- `getParentInjectorView` from util.ts: decode the view offset from the
location and climb the declaration-view chain that many times. -/
def getParentInjectorView (location : Nat) (startView : Slot) : Slot :=
  climbDeclarationView (getParentInjectorViewOffset location) startView

/-- The fast-path `while` loop of `getParentInjectorTNode`:
`while (parentTNode.parent != null && injectorIndex == parentTNode.injectorIndex)
  parentTNode = parentTNode.parent;`. -/
def climbSameInjector (injectorIndex : Int) : TNode → TNode
  | .mk i ii p nx =>
    match p with
    | some pp =>
      if injectorIndex == ii then climbSameInjector injectorIndex pp
      else .mk i ii p nx
    | none => .mk i ii p nx

/-- The fast path as the claim words it (for comparison with the source's
`climbSameInjector`): keep climbing only while a further static parent
exists and that further parent itself has the identical scope index; stop
before stepping onto a parent with a different scope index. -/
def climbSameInjectorClaim (injectorIndex : Int) : TNode → TNode
  | .mk i ii (some pp) nx =>
    if pp.injectorIndex == injectorIndex then climbSameInjectorClaim injectorIndex pp
    else .mk i ii (some pp) nx
  | .mk i ii none nx => .mk i ii none nx

/-- The cross-view `while (viewOffset > 1)` loop of
`getParentInjectorTNode`, carrying `(viewOffset, parentView, parentTNode)`:
each iteration moves to the declaration view and reads its `T_HOST`. -/
def climbTNodeLoop : Nat → Slot → Option TNode → Option TNode
  | 0, _, t => t
  | 1, _, t => t
  | n + 2, v, _ => climbTNodeLoop (n + 1) v.declarationView v.declarationView.tHost

/-- `getParentInjectorTNode` from util.ts: fast path through the static
descriptor tree when `startTNode.parent && startTNode.parent.injectorIndex !== -1`,
otherwise the cross-view walk over declaration views starting from
`startView[T_HOST]`. -/
def getParentInjectorTNode (location : Nat) (startView : Slot) (startTNode : TNode) :
    Option TNode :=
  match startTNode.parent with
  | some p =>
    if p.injectorIndex ≠ -1 then some (climbSameInjector p.injectorIndex p)
    else climbTNodeLoop (getParentInjectorViewOffset location) startView startView.tHost
  | none => climbTNodeLoop (getParentInjectorViewOffset location) startView startView.tHost

/-! ## Helper lemmas -/

theorem nsizeList_append (xs ys : List NVal) :
    nsizeList (xs ++ ys) = nsizeList xs + nsizeList ys := by
  induction xs with
  | nil => simp [nsizeList]
  | cons a as ih =>
    show nsize a + nsizeList (as ++ ys) = (nsize a + nsizeList as) + nsizeList ys
    rw [ih]; omega

theorem arrCountList_append (xs ys : List NVal) :
    arrCountList (xs ++ ys) = arrCountList xs + arrCountList ys := by
  induction xs with
  | nil => simp [arrCountList]
  | cons a as ih =>
    show arrCount a + arrCountList (as ++ ys) = (arrCount a + arrCountList as) + arrCountList ys
    rw [ih]; omega

theorem leavesList_append (xs ys : List NVal) :
    leavesList (xs ++ ys) = leavesList xs ++ leavesList ys := by
  induction xs with
  | nil => simp [leavesList]
  | cons a as ih =>
    show leavesOf a ++ leavesList (as ++ ys) = (leavesOf a ++ leavesList as) ++ leavesList ys
    rw [ih, List.append_assoc]

theorem flattenGo_eq (l : List NVal) (result : List Int) :
    flattenGo l result = result ++ leavesList l := by
  induction l, result using flattenGo.induct <;>
    simp_all [flattenGo, leavesList, leavesOf, leavesList_append]

theorem flattenGoFuel_eq (l : List NVal) (result : List Int) :
    ∀ fuel, nsizeList l ≤ fuel → flattenGoFuel fuel l result = some (flattenGo l result) := by
  induction l, result using flattenGo.induct with
  | case1 result =>
    intro fuel _
    cases fuel <;> simp [flattenGoFuel, flattenGo]
  | case2 n rest result ih =>
    intro fuel h
    match fuel with
    | 0 => simp [nsizeList, nsize] at h
    | f + 1 =>
      have hf : nsizeList rest ≤ f := by
        simp [nsizeList, nsize] at h; omega
      simp [flattenGoFuel, flattenGo, ih f hf]
  | case3 xs rest result hlen ih =>
    intro fuel h
    match fuel with
    | 0 => simp [nsizeList, nsize] at h
    | f + 1 =>
      have hf : nsizeList (xs ++ rest) ≤ f := by
        simp [nsizeList, nsize] at h
        rw [nsizeList_append]; omega
      simp [flattenGoFuel, flattenGo, hlen, ih f hf]
  | case4 xs rest result hlen ih =>
    intro fuel h
    match fuel with
    | 0 => simp [nsizeList, nsize] at h
    | f + 1 =>
      have hf : nsizeList rest ≤ f := by
        simp [nsizeList, nsize] at h; omega
      simp [flattenGoFuel, flattenGo, hlen, ih f hf]

/-! ## Claim theorems -/

/-- C4: `flatten` returns the non-sequence leaves of the (finite, nested)
input in left-to-right order — `flatten(S)` equals the leaf sequence of
`S` — and in particular `flatten([1, [2, [3, 4]], 5]) = [1, 2, 3, 4, 5]`
and `flatten([[]]) = []`.  (The embedding is pure: the source loop never
writes to the input, `concat`/`slice` allocate fresh arrays, so the
no-mutation part of the claim holds by construction.) -/
theorem flatten_spec :
    (∀ l : List NVal, flatten l = leavesList l) ∧
    flatten [.leaf 1, .arr [.leaf 2, .arr [.leaf 3, .leaf 4]], .leaf 5] = [1, 2, 3, 4, 5] ∧
    flatten [.arr []] = [] := by
  have h : ∀ l : List NVal, flatten l = leavesList l := by
    intro l
    simpa using flattenGo_eq l []
  refine ⟨h, ?_, ?_⟩ <;> rw [h] <;> rfl

/-- C10: the `flatten` loop terminates on every finite nested input:
unwrapping a non-empty nested array strictly decreases the number of array
wrappers in the unprocessed suffix of the working list, and a fuel-indexed
copy of the loop never exhausts `nsizeList l` fuel (every loop step removes
at least one constructor of the suffix), so the loop finishes. -/
theorem flatten_terminates :
    (∀ xs rest : List NVal, xs ≠ [] →
      arrCountList (xs ++ rest) < arrCountList (NVal.arr xs :: rest)) ∧
    (∀ (fuel : Nat) (l : List NVal) (result : List Int), nsizeList l ≤ fuel →
      flattenGoFuel fuel l result = some (flattenGo l result)) := by
  constructor
  · intro xs rest _
    show arrCountList (xs ++ rest) < arrCount (NVal.arr xs) + arrCountList rest
    rw [arrCountList_append, arrCount]
    omega
  · intro fuel l result h
    exact flattenGoFuel_eq l result fuel h

/-- Witness for C10: one unwrap step on the working list `[[0]]` decreases
the wrapper count, and 3 fuel units run the loop on `[[0]]` to completion. -/
theorem flatten_terminates_witness :
    arrCountList ([NVal.leaf 0] ++ []) < arrCountList [NVal.arr [NVal.leaf 0]] ∧
    flattenGoFuel 3 [NVal.arr [NVal.leaf 0]] [] =
      some (flattenGo [NVal.arr [NVal.leaf 0]] []) :=
  ⟨flatten_terminates.1 [NVal.leaf 0] [] (by simp),
   flatten_terminates.2 3 [NVal.arr [NVal.leaf 0]] [] (by simp [nsizeList, nsize])⟩

/-- C5: `isDifferent(a, b)` is `false` exactly when `a` and `b` are
reference/scalar-equal or both are NaN, and `true` for every other pairing
(one NaN, one not included); with the four quoted evaluations. -/
theorem isDifferent_spec :
    (∀ a b : JSVal, isDifferent a b = false ↔ (jsEq a b = true ∨ (a = .nan ∧ b = .nan))) ∧
    isDifferent .nan .nan = false ∧
    isDifferent (.val 1) (.val 1) = false ∧
    isDifferent (.val 1) (.val 2) = true ∧
    isDifferent .nan (.val 1) = true := by
  refine ⟨fun a b => ?_, by decide, by decide, by decide, by decide⟩
  cases a <;> cases b <;> simp [isDifferent, jsEq]

/-- C9: `isDifferent` is symmetric: `isDifferent a b = isDifferent b a`
for all values `a` and `b`. -/
theorem isDifferent_symm : ∀ a b : JSVal, isDifferent a b = isDifferent b a := by
  intro a b
  cases a <;> cases b <;> simp [isDifferent, jsEq, eq_comm, BEq.comm]

/-- C6: the injector-location codec round-trips: for every scope-index
within the mask range and view-offset within the shift range, decoding the
packed location with `getParentInjectorIndex` (mask the low bits) and
`getParentInjectorViewOffset` (shift out the high bits) recovers the
original pair. -/
theorem injectorLocation_roundTrip :
    ∀ scopeIndex viewOffset : Nat,
      scopeIndex ≤ InjectorIndexMask → viewOffset < 2 ^ 15 →
      getParentInjectorIndex (encodeInjectorLocation scopeIndex viewOffset) = scopeIndex ∧
      getParentInjectorViewOffset (encodeInjectorLocation scopeIndex viewOffset) = viewOffset := by
  intro s o hs ho
  rw [InjectorIndexMask] at hs
  constructor
  · show (s + o * 2 ^ ViewOffsetShift) &&& InjectorIndexMask = s
    have hmask : InjectorIndexMask = 2 ^ 16 - 1 := by rw [InjectorIndexMask]; norm_num
    rw [hmask, ViewOffsetShift, Nat.and_pow_two_sub_one_eq_mod]
    have h16 : (2 : Nat) ^ 16 = 65536 := by norm_num
    rw [h16]
    omega
  · show (s + o * 2 ^ ViewOffsetShift) >>> ViewOffsetShift = o
    rw [ViewOffsetShift, Nat.shiftRight_eq_div_pow]
    have h16 : (2 : Nat) ^ 16 = 65536 := by norm_num
    rw [h16]
    omega

/-- Witness for C6 at scope-index 5, view-offset 3. -/
theorem injectorLocation_roundTrip_witness :
    getParentInjectorIndex (encodeInjectorLocation 5 3) = 5 ∧
    getParentInjectorViewOffset (encodeInjectorLocation 5 3) = 3 :=
  injectorLocation_roundTrip 5 3 (by decide) (by norm_num)

theorem climbDeclarationView_eq (n : Nat) (v : Slot) :
    climbDeclarationView n v = Slot.declarationView^[n] v := by
  induction n generalizing v with
  | zero => rfl
  | succ k ih =>
    rw [climbDeclarationView, ih, Function.iterate_succ_apply]

/-- C7: `getParentInjectorView` climbs the declaration-view chain exactly
`view-offset` times from the start view (the loop computes the
`view-offset`-fold iterate of the `DECLARATION_VIEW` step) and a location
with view-offset 0 returns the start view unchanged. -/
theorem getParentInjectorView_spec :
    ∀ (location : Nat) (startView : Slot) (n : Nat),
      getParentInjectorViewOffset location = n →
      getParentInjectorView location startView = Slot.declarationView^[n] startView ∧
      (n = 0 → getParentInjectorView location startView = startView) := by
  intro loc v n h
  have h1 : getParentInjectorView loc v = Slot.declarationView^[n] v := by
    rw [getParentInjectorView, h, climbDeclarationView_eq]
  exact ⟨h1, fun h0 => by rw [h1, h0]; rfl⟩

/-- Witness for C7: a location with view-offset 0 leaves a concrete view
unchanged. -/
theorem getParentInjectorView_spec_witness :
    getParentInjectorViewOffset 5 = 0 ∧
    getParentInjectorView 5 (Slot.view .null none .null none .null []) =
      Slot.view .null none .null none .null [] :=
  ⟨by decide,
   (getParentInjectorView_spec 5 (Slot.view .null none .null none .null []) 0 (by decide)).2 rfl⟩

/-- C8: `getLViewParent` returns the container's own parent when the raw
`PARENT` reference of the view is an `LContainer`, and the raw `PARENT`
reference itself otherwise. -/
theorem getLViewParent_spec :
    ∀ lView : Slot,
      (isLContainer lView.parentSlot = true →
        getLViewParent lView = lView.parentSlot.containerParent) ∧
      (isLContainer lView.parentSlot = false →
        getLViewParent lView = lView.parentSlot) := by
  intro v
  constructor <;> intro h <;> simp [getLViewParent, h]

/-- Witness for C8: a view whose parent is a container yields the
container's parent view; a view whose parent is a plain view yields it
directly. -/
theorem getLViewParent_spec_witness :
    getLViewParent
        (Slot.view .null none
          (Slot.container (Slot.rnode 1) (Slot.view .null none .null none .null []))
          none .null [])
      = Slot.view .null none .null none .null [] ∧
    getLViewParent (Slot.view .null none (Slot.rnode 2) none .null []) = Slot.rnode 2 :=
  ⟨(getLViewParent_spec
      (Slot.view .null none
        (Slot.container (Slot.rnode 1) (Slot.view .null none .null none .null []))
        none .null [])).1 rfl,
   (getLViewParent_spec (Slot.view .null none (Slot.rnode 2) none .null [])).2 rfl⟩

theorem climbTNodeLoop_eq (n : Nat) (v : Slot) (h : 1 ≤ n) :
    climbTNodeLoop n v v.tHost = (Slot.declarationView^[n - 1] v).tHost := by
  induction n generalizing v with
  | zero => omega
  | succ k ih =>
    cases k with
    | zero => rfl
    | succ m =>
      show climbTNodeLoop (m + 1) v.declarationView v.declarationView.tHost = _
      rw [ih v.declarationView (by omega)]
      rw [Nat.succ_sub_one, Nat.succ_sub_one, Function.iterate_succ_apply]

/-- C1: when the static parent of the start descriptor has no usable scope
index, `getParentInjectorTNode` climbs the declaration-view chain exactly
`n − 1` times from the start view (`n ≥ 1` the decoded view-offset, the
first hop being implicit) and returns the `T_HOST` root descriptor of the
final view reached. -/
theorem getParentInjectorTNode_crossView :
    ∀ (location : Nat) (startView : Slot) (startTNode : TNode) (n : Nat),
      getParentInjectorViewOffset location = n → 1 ≤ n →
      (∀ p, startTNode.parent = some p → p.injectorIndex = -1) →
      getParentInjectorTNode location startView startTNode =
        (Slot.declarationView^[n - 1] startView).tHost := by
  intro loc v t n hn h1 hp
  rw [getParentInjectorTNode]
  cases ht : t.parent with
  | none =>
    rw [hn, climbTNodeLoop_eq n v h1]
  | some p =>
    have hpi := hp p ht
    simp only [hpi, ne_eq, not_true_eq_false, if_false]
    rw [hn, climbTNodeLoop_eq n v h1]

/-- Witness for C1: view-offset 2, one explicit declaration-view hop,
returning the `T_HOST` of the view reached. -/
theorem getParentInjectorTNode_crossView_witness :
    getParentInjectorViewOffset 131072 = 2 ∧
    getParentInjectorTNode 131072
        (Slot.view .null none .null none
          (Slot.view .null none .null (some (TNode.mk 3 5 none none)) .null []) [])
        (TNode.mk 0 0 none none)
      = some (TNode.mk 3 5 none none) := by
  refine ⟨by decide, ?_⟩
  rw [getParentInjectorTNode_crossView 131072
        (Slot.view .null none .null none
          (Slot.view .null none .null (some (TNode.mk 3 5 none none)) .null []) [])
        (TNode.mk 0 0 none none) 2 (by decide) (by omega)
        (fun p h => by simp [TNode.parent] at h)]
  rfl

theorem climbSameInjector_find (ii : Int) (t : TNode) :
    (ancestorChain t).find? (fun u => u.parent.isNone || u.injectorIndex != ii)
      = some (climbSameInjector ii t) := by
  induction t using ancestorChain.induct with
  | case1 i tii nx =>
    simp [ancestorChain, climbSameInjector, TNode.parent, List.find?]
  | case2 i tii pp nx ih =>
    by_cases h : tii = ii
    · subst h
      rw [ancestorChain,
          List.find?_cons_of_neg _ (by simp [TNode.parent, TNode.injectorIndex]), ih,
          climbSameInjector]
      simp
    · rw [ancestorChain,
          List.find?_cons_of_pos _ (by simp [TNode.parent, TNode.injectorIndex, h]),
          climbSameInjector]
      simp [Ne.symm h]

/-- C2 counterexample: start descriptor whose static parent `P` has scope
index 5 and whose grandparent `Q` has scope index 7.  The claim's rule
(climb only while the further parent shares the scope index; return the
first ancestor whose scope index differs from its own parent's) stops at
`P`, but the code steps onto `Q` — the first ancestor with a *different*
scope index — and returns it. -/
theorem getParentInjectorTNode_fastPath_cex :
    getParentInjectorTNode 0 Slot.null
        (TNode.mk 0 0 (some (TNode.mk 1 5 (some (TNode.mk 2 7 none none)) none)) none)
      = some (TNode.mk 2 7 none none) ∧
    climbSameInjectorClaim 5 (TNode.mk 1 5 (some (TNode.mk 2 7 none none)) none)
      = TNode.mk 1 5 (some (TNode.mk 2 7 none none)) none ∧
    TNode.mk 2 7 none none ≠ TNode.mk 1 5 (some (TNode.mk 2 7 none none)) none := by
  refine ⟨rfl, rfl, ?_⟩
  intro h
  injection h with h1 _ _ _
  exact absurd h1 (by decide)

/-- C2 (amended): when the static parent `p` of the start descriptor has a
valid scope index, `getParentInjectorTNode` stays in the static descriptor
tree (the result is independent of the start view) and returns the first
node of `p`'s ancestor chain that has no further static parent or whose own
scope index differs from `p`'s scope index — the last reachable ancestor
when every ancestor shares `p`'s scope index. -/
theorem getParentInjectorTNode_fastPath :
    ∀ (location : Nat) (startView : Slot) (startTNode p : TNode),
      startTNode.parent = some p → p.injectorIndex ≠ -1 →
      getParentInjectorTNode location startView startTNode
          = some (climbSameInjector p.injectorIndex p) ∧
      (ancestorChain p).find?
          (fun u => u.parent.isNone || u.injectorIndex != p.injectorIndex)
        = some (climbSameInjector p.injectorIndex p) ∧
      (∀ v2 : Slot, getParentInjectorTNode location v2 startTNode
          = getParentInjectorTNode location startView startTNode) := by
  intro loc v t p hp hpi
  have hbranch : ∀ w : Slot, getParentInjectorTNode loc w t
      = some (climbSameInjector p.injectorIndex p) := by
    intro w
    rw [getParentInjectorTNode, hp]
    exact if_pos hpi
  exact ⟨hbranch v, climbSameInjector_find p.injectorIndex p, fun v2 => by rw [hbranch, hbranch]⟩

/-- Witness for C2's amended theorem on a three-node static chain sharing
one scope index. -/
theorem getParentInjectorTNode_fastPath_witness :
    TNode.parent (TNode.mk 0 0 (some (TNode.mk 1 5 (some (TNode.mk 2 5 none none)) none)) none)
      = some (TNode.mk 1 5 (some (TNode.mk 2 5 none none)) none) ∧
    getParentInjectorTNode 0 Slot.null
        (TNode.mk 0 0 (some (TNode.mk 1 5 (some (TNode.mk 2 5 none none)) none)) none)
      = some (climbSameInjector 5 (TNode.mk 1 5 (some (TNode.mk 2 5 none none)) none)) := by
  refine ⟨rfl, ?_⟩
  exact (getParentInjectorTNode_fastPath 0 Slot.null
    (TNode.mk 0 0 (some (TNode.mk 1 5 (some (TNode.mk 2 5 none none)) none)) none)
    (TNode.mk 1 5 (some (TNode.mk 2 5 none none)) none)
    rfl (by decide)).1

/-- C3 (evaluation at the failing input): on a view whose single root
descriptor's slot holds a container-wrapped render node,
`getLastRootElementFromView` returns the raw container wrapper — an array
value, not the bare render node the claim (and the Slot Resolver's
`readElementValue`) would produce. -/
theorem getLastRootElementFromView_wrapped :
    getLastRootElementFromView
        (Slot.view .null (some (TNode.mk 0 (-1) none none)) .null none .null
          [Slot.container (Slot.rnode 7) Slot.null])
      = some (Slot.container (Slot.rnode 7) Slot.null) ∧
    isArraySlot (Slot.container (Slot.rnode 7) Slot.null) = true ∧
    readElementValue (Slot.container (Slot.rnode 7) Slot.null) = Slot.rnode 7 :=
  ⟨rfl, rfl, rfl⟩

end Render3
